import Mathlib

set_option maxRecDepth 4000

/-!
Verification of the digest-extraction and sentiment-scoring pipeline of the
cm-intel repository (`src/src/App.tsx`).  The TypeScript functions
`analyzeMarketSentiment`, `runSentimentAnalysis`, `processApiResponse`,
`getDomainName` and `getFavicon` are shallowly embedded as executable Lean
functions over `List Char` / `String`.  JavaScript regular-expression
operations are embedded by explicit character-list scanners that reproduce
the leftmost-match and backtracking behaviour of the concrete patterns used
in the source.  Console logging has no effect on any produced value and is
not modelled; the wall-clock `timestamp` field of a digest is likewise not
modelled.
-/

namespace CMIntel

/-- Market sentiment verdict, `type MarketSentiment = 'up' | 'down' | 'neutral'`
(src/src/App.tsx line 35). -/
inductive MarketSentiment : Type where
  | up
  | down
  | neutral
deriving DecidableEq, Repr

/-- Provenance tag of the sentiment evidence stored for the UI,
`source: 'api' | 'calculated'` (src/src/App.tsx line 77). -/
inductive EvidenceSource : Type where
  | api
  | calculated
deriving DecidableEq, Repr

/-- Verdict thresholding at the end of `runSentimentAnalysis`
(src/src/App.tsx lines 697-703): `up` when `positiveCount > negativeCount + 1`,
`down` when `negativeCount > positiveCount + 1`, otherwise `neutral`. -/
def sentimentFromCounts (positiveCount negativeCount : Nat) : MarketSentiment :=
  if negativeCount + 1 < positiveCount then .up
  else if positiveCount + 1 < negativeCount then .down
  else .neutral

/-- `runSentimentAnalysis` (src/src/App.tsx lines 522-712).  The function
tallies weighted regex matches of a fixed positive/negative lexicon over the
content and then thresholds the two counts.  The lexicon tally is abstracted
here as the parameter `scan` (returning the pair of the positive and negative
count); the spec itself directs that the lexicon tables be treated as injected
configuration.  The verdict computation on the tallied counts is translated
exactly. -/
def runSentimentAnalysis (scan : String → Nat × Nat) (content : String) :
    MarketSentiment :=
  sentimentFromCounts (scan content).1 (scan content).2

/-- `analyzeMarketSentiment` (src/src/App.tsx lines 499-520).  Empty content
returns `neutral` immediately (line 500).  Otherwise, a present explicit
sentiment from the digest is returned as the verdict and the stored evidence
source is overwritten with `'api'`; otherwise the computed analysis runs and
stores `'calculated'`.  The second component records the `source` value
written by the call (`none` when the call returns without touching it). -/
def analyzeMarketSentiment (scan : String → Nat × Nat)
    (explicitSentiment : Option MarketSentiment) (content : String) :
    MarketSentiment × Option EvidenceSource :=
  if content = "" then (.neutral, none)
  else
    match explicitSentiment with
    | some s => (s, some .api)
    | none => (runSentimentAnalysis scan content, some .calculated)

/-! ### Character-level helpers shared by the regex embeddings -/

/-- Whitespace as matched by the regex class `\s` and removed by
`String.prototype.trim` (ASCII subset; the source never feeds non-ASCII
whitespace through these paths). -/
def isWs (c : Char) : Bool :=
  c = ' ' || c = '\n' || c = '\t' || c = '\r' || c = '\x0b' || c = '\x0c'

/-- Drop the maximal leading whitespace run (a greedy `\s*`). -/
def dropWs (l : List Char) : List Char :=
  l.dropWhile isWs

/-- Length of the maximal leading whitespace run. -/
def wsRunLen (l : List Char) : Nat :=
  (l.takeWhile isWs).length

/-- JavaScript `String.prototype.trim`: strip whitespace from both ends. -/
def jsTrim (l : List Char) : List Char :=
  ((l.dropWhile isWs).reverse.dropWhile isWs).reverse

/-- Value of `parseInt` on a nonempty run of decimal digits. -/
def digitsToNat (ds : List Char) : Nat :=
  ds.foldl (fun a c => a * 10 + (c.toNat - 48)) 0

/-- Case-insensitive literal prefix match (the `/i` flag): strip `pat` from
the head of `l`, comparing characters after `Char.toLower`, and return the
remainder. -/
def stripPrefixCI : List Char → List Char → Option (List Char)
  | [], l => some l
  | _ :: _, [] => none
  | p :: ps, c :: cs => if p.toLower = c.toLower then stripPrefixCI ps cs else none

/-- Case-sensitive literal prefix match: strip `pat` from the head of `l`. -/
def stripPrefixExact (pat l : List Char) : Option (List Char) :=
  if pat.isPrefixOf l then some (l.drop pat.length) else none

/-- Split a character list at every occurrence of `sep`
(JavaScript `String.prototype.split` with a one-character separator). -/
def splitOnChar (sep : Char) : List Char → List (List Char)
  | [] => [[]]
  | c :: rest =>
    if c = sep then [] :: splitOnChar sep rest
    else
      match splitOnChar sep rest with
      | g :: gs => (c :: g) :: gs
      | [] => [[c]]

/-- Whether `pat` occurs as a contiguous substring of `l`. -/
def containsSub (pat l : List Char) : Bool :=
  l.tails.any (fun t => pat.isPrefixOf t)

/-- Remove the first occurrence of `pat` from `l`
(JavaScript `String.prototype.replace` with a string pattern and empty
replacement). -/
def removeFirstOcc (pat : List Char) : List Char → List Char
  | [] => []
  | c :: rest =>
    if pat.isPrefixOf (c :: rest) then (c :: rest).drop pat.length
    else c :: removeFirstOcc pat rest

/-! ### Model of the WHATWG `URL` constructor

`getDomainName` and `getFavicon` call the platform's `new URL(url)` and read
`hostname` / `origin`, catching the exception thrown on unparseable input.
The constructor is embedded for the absolute hierarchical form
`scheme://[userinfo@]host[:port][/path…]` actually exercised by this
application; any other shape is modelled as a parse failure.  The scheme and
host are lowercased, userinfo is dropped, a numeric port is kept unless it is
the scheme's default (443 for `https`, 80 for `http`). -/

/-- Characters allowed in a URL scheme after the initial letter. -/
def isSchemeChar (c : Char) : Bool :=
  c.isAlpha || c.isDigit || c = '+' || c = '-' || c = '.'

/-- Characters the URL standard forbids inside a host. -/
def isForbiddenHostChar (c : Char) : Bool :=
  isWs c || c = '#' || c = '/' || c = ':' || c = '?' || c = '@' || c = '[' ||
    c = '\\' || c = ']' || c = '^' || c = '<' || c = '>' || c = '"' ||
    c = '|' || c = '%'

/-- Components of a successfully parsed URL. -/
structure UrlParts where
  scheme : List Char
  host : List Char
  port : Option Nat
deriving DecidableEq, Repr

/-- The part of an authority after the last `@` (the host-and-port part,
with any userinfo removed). -/
def afterLastAt (l : List Char) : List Char :=
  let r := l.reverse.takeWhile (fun c => c ≠ '@')
  if r.length = l.length then l else r.reverse

/-- Split a host-and-port at the last `:`; the second component is the raw
port text when a colon is present. -/
def lastColonSplit (l : List Char) : List Char × Option (List Char) :=
  let r := l.reverse.takeWhile (fun c => c ≠ ':')
  if r.length = l.length then (l, none)
  else ((l.reverse.drop (r.length + 1)).reverse, some r.reverse)

/-- Normalize a parsed port: empty means default; a non-digit is a parse
error (`none` result); the scheme's default port is elided. -/
def normalizePort (scheme : List Char) : Option (List Char) → Option (Option Nat)
  | none => some none
  | some [] => some none
  | some ds =>
    if ds.all Char.isDigit then
      let n := digitsToNat ds
      if (scheme = "https".data && n = 443) || (scheme = "http".data && n = 80) then
        some none
      else some (some n)
    else none

/-- Model of `new URL(s)` (see the section comment above). -/
def parseUrl (l : List Char) : Option UrlParts :=
  match l with
  | [] => none
  | c :: _ =>
    if c.isAlpha then
      let scheme := l.takeWhile isSchemeChar
      match l.drop scheme.length with
      | ':' :: '/' :: '/' :: rest =>
        let auth := rest.takeWhile (fun d => ¬ (d = '/' || d = '?' || d = '#'))
        let hp := afterLastAt auth
        let hostRaw := (lastColonSplit hp).1
        if hostRaw.isEmpty then none
        else if hostRaw.any isForbiddenHostChar then none
        else
          match normalizePort (scheme.map Char.toLower) (lastColonSplit hp).2 with
          | none => none
          | some port =>
            some { scheme := scheme.map Char.toLower,
                   host := hostRaw.map Char.toLower,
                   port := port }
      | _ => none
    else none

/-- `URL.origin` for a parsed URL: `scheme://host[:port]`. -/
def urlOrigin (u : UrlParts) : List Char :=
  u.scheme ++ (':' :: '/' :: '/' :: []) ++ u.host ++
    (match u.port with
     | none => []
     | some n => ':' :: (Nat.repr n).data)

/-- `hostname.replace(/^www\./, '')` (src/src/App.tsx line 292). -/
def stripWww (h : List Char) : List Char :=
  if "www.".data.isPrefixOf h then h.drop 4 else h

/-- `getDomainName` (src/src/App.tsx lines 289-306): hostname of the parsed
URL, leading `www.` dropped, split on `.`; with at least two labels the last
two are joined, except the `markets.businessinsider` alias which collapses to
`businessinsider.<last>`; with fewer than two labels the hostname is
returned; on parse failure the input is returned unchanged. -/
def getDomainName (url : String) : String :=
  match parseUrl url.data with
  | none => url
  | some u =>
    let hostname := u.host
    let parts := splitOnChar '.' (stripWww hostname)
    if 2 ≤ parts.length then
      if parts.headD [] = "markets".data ∧ parts.getD 1 [] = "businessinsider".data then
        ⟨"businessinsider.".data ++ parts.getLastD []⟩
      else
        ⟨parts.getD (parts.length - 2) [] ++ ('.' :: parts.getLastD [])⟩
    else ⟨hostname⟩

/-- `getFavicon` (src/src/App.tsx lines 308-315): the URL's origin suffixed
with `/favicon.ico`, or the empty string when the URL does not parse. -/
def getFavicon (url : String) : String :=
  match parseUrl url.data with
  | some u => ⟨urlOrigin u ++ "/favicon.ico".data⟩
  | none => ""

/-! ### Content normalizer

The markdown clean-up applied after citation extraction
(src/src/App.tsx lines 484-487):
`.replace(/\*\*/g, '').replace(/^\d+\.\s+/gm, '').replace(/\n+/g, '\n\n')`. -/

/-- `content.replace(/\*\*/g, '')`: remove every (left-to-right,
non-overlapping) occurrence of `**`. -/
def removeBoldL : List Char → List Char
  | [] => []
  | [c] => [c]
  | a :: b :: rest =>
    if a = '*' ∧ b = '*' then removeBoldL rest
    else a :: removeBoldL (b :: rest)

/-- One attempt of `^\d+\.\s+` at a line start: the number of characters
consumed (digits, the dot, then the greedy whitespace run) and whether the
last consumed character is a newline (so that the position after the match is
again a line start for the multiline `^`). -/
def ordinalSplit (l : List Char) : Option (Nat × Bool) :=
  let ds := l.takeWhile Char.isDigit
  if ds.isEmpty then none
  else
    match l.drop ds.length with
    | '.' :: r =>
      let ws := r.takeWhile isWs
      if ws.isEmpty then none
      else some (ds.length + 1 + ws.length, ws.getLastD ' ' = '\n')
    | _ => none

/-- `content.replace(/^\d+\.\s+/gm, '')`: remove a leading ordinal list
marker at every line start, scanning left to right; after a removal the scan
continues from the end of the removed text (it does not rescan), exactly as a
JavaScript global replace does.  A successful `ordinalSplit` consumes at
least one character, so the length of the text bounds the number of steps
and the fuel never runs out. -/
def removeOrdinalsGo : Nat → Bool → List Char → List Char
  | 0, _, l => l
  | _, _, [] => []
  | fuel + 1, atLineStart, c :: rest =>
    if atLineStart then
      match ordinalSplit (c :: rest) with
      | some nb => removeOrdinalsGo fuel nb.2 ((c :: rest).drop nb.1)
      | none => c :: removeOrdinalsGo fuel (c = '\n') rest
    else c :: removeOrdinalsGo fuel (c = '\n') rest

/-- The ordinal-marker removal step, started at the beginning of the text
(which is a line start). -/
def removeOrdinalsL (l : List Char) : List Char :=
  removeOrdinalsGo l.length true l

/-- `content.replace(/\n+/g, '\n\n')` as a single left-to-right scan: the
flag records whether the scanner is inside a newline run that has already
been replaced. -/
def collapseGo : Bool → List Char → List Char
  | _, [] => []
  | inRun, c :: rest =>
    if c = '\n' then
      if inRun then collapseGo true rest
      else '\n' :: '\n' :: collapseGo true rest
    else c :: collapseGo false rest

/-- `content.replace(/\n+/g, '\n\n')`: every maximal run of newlines is
replaced by exactly two newlines. -/
def collapseNewlinesL (l : List Char) : List Char :=
  collapseGo false l

/-- The full markdown clean-up of src/src/App.tsx lines 484-487, in source
order: bold markers, then ordinal list markers, then newline collapsing. -/
def normalizeContent (l : List Char) : List Char :=
  collapseNewlinesL (removeOrdinalsL (removeBoldL l))

/-! ### Citation extraction (`processApiResponse`, src/src/App.tsx lines 317-497) -/

/-- One entry of the `apiSources` array handed over by the AI SDK; either
field may be absent. -/
structure ApiSource where
  url : Option String
  title : Option String
deriving DecidableEq, Repr

/-- A `Citation` (src/lib/database.types, used at src/src/App.tsx
lines 362-368). -/
structure Citation where
  number : Nat
  title : String
  url : String
  isCited : Bool
  favicon : String
deriving DecidableEq, Repr

/-- A `NewsDigest` (src/src/App.tsx lines 28-33).  The wall-clock
`timestamp` field is not modelled. -/
structure NewsDigest where
  content : String
  citations : List Citation
  explicitSentiment : Option MarketSentiment
deriving DecidableEq, Repr

/-- JavaScript `x || y` for an optional string `x`: `y` when `x` is absent or
empty (falsy), `x` otherwise. -/
def jsOrS (x : Option String) (y : String) : String :=
  match x with
  | none => y
  | some s => if s = "" then y else s

/-- Detection of the leading explicit sentiment directive and its removal
(src/src/App.tsx lines 324-336): `^SENTIMENT:\s*(BULLISH|BEARISH|NEUTRAL)/i`
to test, then `^SENTIMENT:\s*(…)\s*\n*/i` replaced by the empty string and
the result trimmed.  Returns the captured sentiment (if any) together with
the processed content. -/
def extractSentiment (c : List Char) : Option MarketSentiment × List Char :=
  match stripPrefixCI "SENTIMENT:".data c with
  | none => (none, c)
  | some r =>
    match stripPrefixCI "BULLISH".data (dropWs r) with
    | some r2 => (some .up, jsTrim (dropWs r2))
    | none =>
      match stripPrefixCI "BEARISH".data (dropWs r) with
      | some r2 => (some .down, jsTrim (dropWs r2))
      | none =>
        match stripPrefixCI "NEUTRAL".data (dropWs r) with
        | some r2 => (some .neutral, jsTrim (dropWs r2))
        | none => (none, c)

/-- Strategy 1 citation builder (src/src/App.tsx lines 354-368): for index
`i`, `number = i + 1`, `url = source.url || ""`,
`title = source.title || getDomainName(url)`, `favicon = getFavicon(url)`. -/
def mkApiCitation (i : Nat) (s : ApiSource) : Citation :=
  { number := i + 1,
    title := jsOrS s.title (getDomainName (jsOrS s.url "")),
    url := jsOrS s.url "",
    isCited := true,
    favicon := getFavicon (jsOrS s.url "") }

/-- The strategy 1 loop over `apiSources`, carrying the running index. -/
def apiCitationsFrom (k : Nat) : List ApiSource → List Citation
  | [] => []
  | s :: rest => mkApiCitation k s :: apiCitationsFrom (k + 1) rest

/-- The greedy optional `(?:\*\*)?`: consume a literal `**` when present.
(When `**` is present the star is never a legal start of the following
literal, so no backtracking into the skipped alternative can succeed.) -/
def starsOpt (l : List Char) : List Char :=
  match l with
  | '*' :: '*' :: rest => rest
  | _ => l

/-- One attempt of the strategy 2 block regex
`(?:\*\*)?Sources(?:\*\*)?\s*(?::|$)([\s\S]+)?$/i` at the head of `l`
(src/src/App.tsx line 375).  `none`: no match here; `some none`: match with
an undefined capture group; `some (some g)`: match with group `g` (the whole
remainder after the colon). -/
def matchSourcesHeadAt (l : List Char) : Option (Option (List Char)) :=
  match stripPrefixCI "Sources".data (starsOpt l) with
  | none => none
  | some r =>
    match dropWs (starsOpt r) with
    | [] => some none
    | ':' :: t => if t.isEmpty then some none else some (some t)
    | _ => none

/-- Leftmost match of the strategy 2 block regex over the whole content
(`content.match(…)`, src/src/App.tsx line 375). -/
def findSourcesBlock : List Char → Option (Option (List Char))
  | [] => none
  | l@(_ :: rest) =>
    match matchSourcesHeadAt l with
    | some g => some g
    | none => findSourcesBlock rest

/-- One attempt of the strategy 2 strip regex
`(?:\*\*)?Sources(?:\*\*)?\s*(?::|$)[\s\S]+$/i` (src/src/App.tsx line 408):
unlike the block-match regex its tail `[\s\S]+` is mandatory, so it matches
only when a colon with a nonempty remainder follows the heading. -/
def matchesSourcesStripAt (l : List Char) : Bool :=
  match stripPrefixCI "Sources".data (starsOpt l) with
  | none => false
  | some r =>
    match dropWs (starsOpt r) with
    | ':' :: t => ¬ t.isEmpty
    | _ => false

/-- Delete everything from the leftmost strategy 2 strip-regex match to the
end of the text (the match always extends to `$`). -/
def stripSourcesBlockFrom : List Char → List Char
  | [] => []
  | l@(c :: rest) =>
    if matchesSourcesStripAt l then []
    else c :: stripSourcesBlockFrom rest

/-- The body of the strategy 2 per-line regex
`(?:\[?(\d+)\]?\.?:?\s+)(https?:\/\/[^\s]+)/i` tried at the head of `l`
(src/src/App.tsx line 386): optional `[`, digits, optional `]`, optional
`.`, optional `:`, mandatory whitespace, then a `http(s)://` URL running to
the next whitespace.  Each optional consumes greedily; since none of those
literals is whitespace, a skipped alternative can never rescue a failed
greedy one.  Returns the citation number and the URL text (original
casing). -/
def lineBodyMatch (l : List Char) : Option (Nat × List Char) :=
  let l1 := match l with
            | '[' :: t => t
            | _ => l
  let ds := l1.takeWhile Char.isDigit
  if ds.isEmpty then none
  else
    let l2 := l1.drop ds.length
    let l3 := match l2 with
              | ']' :: t => t
              | _ => l2
    let l4 := match l3 with
              | '.' :: t => t
              | _ => l3
    let l5 := match l4 with
              | ':' :: t => t
              | _ => l4
    let ws := l5.takeWhile isWs
    if ws.isEmpty then none
    else
      let l6 := l5.drop ws.length
      match stripPrefixCI "http".data l6 with
      | none => none
      | some r1 =>
        let hasS : Bool := match r1 with
                           | c :: _ => c.toLower = 's'
                           | [] => false
        let r2 := if hasS then r1.drop 1 else r1
        match stripPrefixCI "://".data r2 with
        | none => none
        | some r3 =>
          let nonWs := r3.takeWhile (fun c => ¬ isWs c)
          if nonWs.isEmpty then none
          else some (digitsToNat ds, l6.take (l6.length - r3.length + nonWs.length))

/-- Leftmost match of the per-line regex: the `(?:^|\s)` head anchors a match
attempt at the line start or just after any whitespace character. -/
def lineSourceFrom : Bool → List Char → Option (Nat × List Char)
  | _, [] => none
  | first, c :: rest =>
    (if first then lineBodyMatch (c :: rest) else none) <|>
    (if isWs c then lineBodyMatch rest else none) <|>
    lineSourceFrom false rest

/-- Strategy 2 per-line source extraction (src/src/App.tsx lines 384-405). -/
def lineSourceMatch (line : List Char) : Option (Nat × List Char) :=
  lineSourceFrom true line

/-- A citation whose title and favicon are both derived from its URL, as
built by strategies 2 and 4 (src/src/App.tsx lines 396-402 and 458-464). -/
def mkUrlCitation (n : Nat) (url : List Char) : Citation :=
  { number := n,
    title := getDomainName ⟨url⟩,
    url := ⟨url⟩,
    isCited := true,
    favicon := getFavicon ⟨url⟩ }

/-- Strategy 2 (src/src/App.tsx lines 373-409): the block regex is matched
against the ORIGINAL `content` parameter, while the strip regex is applied to
the current `processedContent`; when the block matched with a defined capture
group, its lines are scanned and the matched block is stripped (and the
result trimmed) even when no line yields a citation. -/
def strategy2 (content pc : List Char) : List Citation × List Char :=
  match findSourcesBlock content with
  | some (some block) =>
    ((splitOnChar '\n' block).filterMap
        (fun line => (lineSourceMatch line).map (fun p => mkUrlCitation p.1 p.2)),
      jsTrim (stripSourcesBlockFrom pc))
  | _ => ([], pc)

/-! ### Strategy 3: inline numbered `Sources:` section with title text
(src/src/App.tsx lines 411-444) -/

/-- Tail of one attempt of `Sources?:?\s*([\s\S]+)$/i` after the optional
tokens: the greedy `\s*` backs off just enough to leave the mandatory
`[\s\S]+` at least one character. -/
def finish3 (rest : List Char) : Option (List Char) :=
  if rest.isEmpty then none
  else some (rest.drop (min (wsRunLen rest) (rest.length - 1)))

/-- The optional `:?` followed by `finish3`, in backtracking order (consume
the colon first, fall back to leaving it for the `[\s\S]+`). -/
def afterColon3 (t : List Char) : Option (List Char) :=
  (match t with
   | ':' :: u => finish3 u
   | _ => none) <|> finish3 t

/-- One attempt of the strategy 3 section regex `Sources?:?\s*([\s\S]+)$/i`
at the head of `l` (src/src/App.tsx line 413), with the optional `s?` tried
greedily first. -/
def matchSources3At (l : List Char) : Option (List Char) :=
  match stripPrefixCI "Source".data l with
  | none => none
  | some r =>
    (match r with
     | c :: t => if c.toLower = 's' then afterColon3 t else none
     | [] => none) <|> afterColon3 r

/-- Leftmost match of the strategy 3 section regex. -/
def findSources3 : List Char → Option (List Char)
  | [] => none
  | l@(_ :: rest) => matchSources3At l <|> findSources3 rest

/-- The lookahead `(?=\s*(?:\[\d+\]|$))` of the entry regex
(src/src/App.tsx line 417). -/
def lookahead3 (h : List Char) : Bool :=
  match dropWs h with
  | [] => true
  | '[' :: t =>
    let ds := t.takeWhile Char.isDigit
    ¬ ds.isEmpty && (match t.drop ds.length with
                     | ']' :: _ => true
                     | _ => false)
  | _ => false

/-- The lazy `([^[]+?)` with its lookahead: the shortest nonempty prefix of
non-`[` characters after which the lookahead holds.  Returns the captured
group and the remainder (the match ends at the group's end, fixing
`lastIndex` for the global scan). -/
def tryGroup2 : List Char → Option (List Char × List Char)
  | [] => none
  | c :: rest =>
    if c = '[' then none
    else if lookahead3 rest then some ([c], rest)
    else
      match tryGroup2 rest with
      | some (g, rem) => some (c :: g, rem)
      | none => none

/-- The greedy `\s*` before the lazy group, in backtracking order: skip `k`
whitespace characters, largest first. -/
def tryGroup2Ws : Nat → List Char → Option (List Char × List Char)
  | 0, g => tryGroup2 g
  | k + 1, g =>
    match tryGroup2 (g.drop (k + 1)) with
    | some r => some r
    | none => tryGroup2Ws k g

/-- One attempt of the entry regex `\[(\d+)\]\s*([^[]+?)(?=\s*(?:\[\d+\]|$))`
just after an opening `[`: digits, `]`, then the whitespace-and-lazy-group
search.  Returns (number, group, remainder after the match). -/
def citEntryAt (t : List Char) : Option (Nat × List Char × List Char) :=
  let ds := t.takeWhile Char.isDigit
  if ds.isEmpty then none
  else
    match t.drop ds.length with
    | ']' :: after =>
      match tryGroup2Ws (wsRunLen after) after with
      | some (g, rem) => some (digitsToNat ds, g, rem)
      | none => none
    | _ => none

/-- Leftmost entry-regex match: attempts start only at `[` characters. -/
def findCitEntry : List Char → Option (Nat × List Char × List Char)
  | [] => none
  | '[' :: rest => citEntryAt rest <|> findCitEntry rest
  | _ :: rest => findCitEntry rest

/-- The global `while ((match = citationRegex.exec(…)))` loop
(src/src/App.tsx lines 418-440): repeatedly take the next entry match and
continue after it.  Each match consumes at least one character, so the
length of the section bounds the number of iterations. -/
def citEntriesGo : Nat → List Char → List (Nat × List Char)
  | 0, _ => []
  | fuel + 1, l =>
    match findCitEntry l with
    | none => []
    | some (n, g, rem) => (n, g) :: citEntriesGo fuel rem

/-- All `[N] title` entries of a sources section, in scan order. -/
def citEntries (l : List Char) : List (Nat × List Char) :=
  citEntriesGo l.length l

/-- Characters matched by `[\w-]` (word characters and the hyphen). -/
def isWordChar (c : Char) : Bool :=
  c.isAlpha || c.isDigit || c = '_' || c = '-'

/-- Characters matched by `[^\s)]`. -/
def isUrlTailChar (c : Char) : Bool :=
  ¬ isWs c && c ≠ ')'

/-- Greedy parse of `(?:\.[\w-]+)+` at the head of the list: returns
(characters consumed, number of dot-groups, length of the last group's word
run).  Each successful group consumes at least two characters, so the length
of the text bounds the number of steps and the fuel never runs out. -/
def parseDotRuns : Nat → List Char → Nat × Nat × Nat
  | 0, _ => (0, 0, 0)
  | fuel + 1, l =>
    match l with
    | '.' :: t =>
      if (t.takeWhile isWordChar).isEmpty then (0, 0, 0)
      else
        let w := t.takeWhile isWordChar
        let rec3 := parseDotRuns fuel (t.drop w.length)
        (1 + w.length + rec3.1, 1 + rec3.2.1, if rec3.2.1 = 0 then w.length else rec3.2.2)
    | _ => (0, 0, 0)

/-- One attempt of the URL-candidate body `[\w-]+(?:\.[\w-]+)+[^\s)]+` at the
head of `l` (src/src/App.tsx line 423).  All three components are greedy and
`[\w-]` and `.` both lie inside `[^\s)]`, so a successful match always
extends to the end of the maximal `[^\s)]` run `T`; the backtracking search
succeeds exactly when the greedy word-and-dot-group parse leaves at least one
character of `T`, or can give one up (a last word run of length ≥ 2, or a
second dot-group that can be surrendered whole). -/
def urlBodyMatch (l : List Char) : Option (List Char) :=
  let T := l.takeWhile isUrlTailChar
  let w1 := T.takeWhile isWordChar
  if w1.isEmpty then none
  else
    let p := parseDotRuns T.length (T.drop w1.length)
    if p.2.1 = 0 then none
    else if w1.length + p.1 < T.length ∨ 2 ≤ p.2.2 ∨ 2 ≤ p.2.1 then some T
    else none

/-- One attempt of the full URL-candidate regex
`(?:(?:https?:)?\/\/)?[\w-]+(?:\.[\w-]+)+[^\s)]+` at the head of `l`: the
optional prefix alternatives are mutually exclusive on their first
character, and a body failure after `http(s)://` cannot be rescued by a
shorter prefix at the same position (the scheme letters are then followed by
`:`, which kills the mandatory dot-group). -/
def urlMatchAt (l : List Char) : Option (List Char) :=
  match stripPrefixCI "https://".data l with
  | some r => (urlBodyMatch r).map (fun m => l.take 8 ++ m)
  | none =>
    match stripPrefixCI "http://".data l with
    | some r => (urlBodyMatch r).map (fun m => l.take 7 ++ m)
    | none =>
      match stripPrefixCI "//".data l with
      | some r => (urlBodyMatch r).map (fun m => l.take 2 ++ m)
      | none => urlBodyMatch l

/-- Leftmost URL-candidate match inside an entry's text
(`citationText.match(…)`, src/src/App.tsx line 423). -/
def findUrlMatch : List Char → Option (List Char)
  | [] => none
  | l@(_ :: rest) => urlMatchAt l <|> findUrlMatch rest

/-- Characters stripped from both ends of a title by
`.replace(/^[-:\s]+|[-:\s]+$/g, '')` (src/src/App.tsx line 427). -/
def isDelimChar (c : Char) : Bool :=
  c = '-' || c = ':' || isWs c

/-- Strip the leading and trailing delimiter runs of a title (the final
`.trim()` is subsumed because whitespace is among the delimiters). -/
def stripDelims (l : List Char) : List Char :=
  ((l.dropWhile isDelimChar).reverse.dropWhile isDelimChar).reverse

/-- Build a strategy 3 citation from one `[N] text` entry (src/src/App.tsx
lines 420-439): the entry text is trimmed, a URL candidate is extracted from
it (entries without one are skipped — `if (url)`), the title is the text
with the URL's first occurrence removed and delimiters stripped, defaulting
to the domain name of the RAW url text; the stored and probed URL gets
`https://` prepended unless it starts with the literal `http`. -/
def mkS3Citation (e : Nat × List Char) : Option Citation :=
  let citationText := jsTrim e.2
  match findUrlMatch citationText with
  | none => none
  | some url =>
    let title := stripDelims (removeFirstOcc url citationText)
    let fullUrl : List Char :=
      if "http".data.isPrefixOf url then url else "https://".data ++ url
    some { number := e.1,
           title := if title.isEmpty then getDomainName ⟨url⟩ else ⟨title⟩,
           url := ⟨fullUrl⟩,
           isCited := true,
           favicon := getFavicon ⟨fullUrl⟩ }

/-- Strategy 3's strip regex `Sources?:?\s*[\s\S]+$/` (src/src/App.tsx
line 442) is case-SENSITIVE (no `/i` flag) and matches wherever the literal
`Source` is followed by at least one further character; everything from the
leftmost such position to the end is deleted. -/
def stripSources3From : List Char → List Char
  | [] => []
  | l@(c :: rest) =>
    if "Source".data.isPrefixOf l ∧ 6 < l.length then []
    else c :: stripSources3From rest

/-- Strategy 3 (src/src/App.tsx lines 411-444): find the `Sources` section in
the current processed content, build citations from its `[N] title` entries,
and strip from the (case-sensitive) `Source` occurrence to the end,
trimming the remainder. -/
def strategy3 (pc : List Char) : List Citation × List Char :=
  match findSources3 pc with
  | none => ([], pc)
  | some sect =>
    ((citEntries sect).filterMap mkS3Citation, jsTrim (stripSources3From pc))

/-! ### Strategy 4: inline bracketed URL objects
(src/src/App.tsx lines 446-470) -/

/-- One quoted alternative `q url q \s* : \s* q VALUE q \s* ]` of the inline
citation regex, for quote character `q`; returns the captured VALUE and the
remainder after the closing bracket. -/
def inlineAlt (q : Char) (t : List Char) : Option (List Char × List Char) :=
  match stripPrefixExact (q :: ("url".data ++ [q])) t with
  | none => none
  | some r1 =>
    match dropWs r1 with
    | ':' :: r2 =>
      match dropWs r2 with
      | c :: r3 =>
        if c = q then
          let v := r3.takeWhile (fun d => d ≠ q)
          if v.isEmpty then none
          else
            match r3.drop v.length with
            | d :: r4 =>
              if d = q then
                match dropWs r4 with
                | ']' :: r5 => some (v, r5)
                | _ => none
              else none
            | [] => none
        else none
      | [] => none
    | _ => none

/-- One attempt of the inline citation regex
`\[\s*(?:"url"\s*:\s*"([^"]+)"|'url'\s*:\s*'([^']+)')\s*\]` at the head of
`l` (src/src/App.tsx line 449); the double-quote alternative is tried
first. -/
def matchInlineUrlAt (l : List Char) : Option (List Char × List Char) :=
  match l with
  | '[' :: t =>
    inlineAlt '"' (dropWs t) <|> inlineAlt (Char.ofNat 39) (dropWs t)
  | _ => none

/-- The strategy 4 global scan: collect every inline-citation URL in
encounter order and simultaneously delete each matched occurrence.  This
fuses the `while` collection loop (lines 453-466) with the global `replace`
of the SAME regex over the SAME string (line 469); both traverse the
unmodified `processedContent`, so their matches coincide. -/
def inlineScanGo : Nat → List Char → List (List Char) × List Char
  | 0, l => ([], l)
  | fuel + 1, l =>
    match l with
    | [] => ([], [])
    | c :: rest =>
      match matchInlineUrlAt l with
      | some (v, rem) =>
        let p := inlineScanGo fuel rem
        (v :: p.1, p.2)
      | none =>
        let p := inlineScanGo fuel rest
        (p.1, c :: p.2)

/-- Number a list of URLs sequentially starting at `k + 1`
(`citationNumber++` starting from 1, src/src/App.tsx lines 451-459). -/
def numberUrls (k : Nat) : List (List Char) → List Citation
  | [] => []
  | u :: rest => mkUrlCitation (k + 1) u :: numberUrls (k + 1) rest

/-- Strategy 4 (src/src/App.tsx lines 446-470). -/
def strategy4 (pc : List Char) : List Citation × List Char :=
  let p := inlineScanGo pc.length pc
  (numberUrls 0 p.1, p.2)

/-! ### The strategy chain and the assembled digest -/

/-- Strategies 3 and 4 in sequence, each tried only when the citation list is
still empty (the `if (citations.length === 0)` guards at src/src/App.tsx
lines 412 and 447). -/
def strategies34 (pc : List Char) : List Citation × List Char :=
  let s3 := strategy3 pc
  if s3.1.isEmpty then strategy4 s3.2 else s3

/-- The full fallback chain of the `else` branch (src/src/App.tsx
lines 370-471): strategy 2 against the original content, then strategies 3
and 4 against the progressively processed content. -/
def fallbackExtract (c pc : List Char) : List Citation × List Char :=
  let s2 := strategy2 c pc
  if s2.1.isEmpty then strategies34 s2.2 else s2

/-- The comparator `(a, b) => a.number - b.number` of the final sort
(src/src/App.tsx line 481) as a relation. -/
def citationLe (a b : Citation) : Prop :=
  a.number ≤ b.number

instance : DecidableRel citationLe := fun a b => Nat.decLe a.number b.number

instance : IsTotal Citation citationLe :=
  ⟨fun a b => Nat.le_total a.number b.number⟩

instance : IsTrans Citation citationLe :=
  ⟨fun _ _ _ h1 h2 => Nat.le_trans h1 h2⟩

/-- `processApiResponse` (src/src/App.tsx lines 317-497): extract the
explicit sentiment directive, build citations (from `apiSources` when
nonempty, otherwise through the fallback chain), sort them by number with a
stable sort (JavaScript `Array.prototype.sort` is stable), and apply the
markdown clean-up to the processed content.  The console-only scan for
inline `[N]` references (lines 340-347, 473-476) produces no part of the
result and is not modelled. -/
def processApiResponse (content : String) (apiSources : List ApiSource) :
    NewsDigest :=
  let es := extractSentiment content.data
  let raw :=
    if apiSources.isEmpty then fallbackExtract content.data es.2
    else (apiCitationsFrom 0 apiSources, es.2)
  { content := ⟨normalizeContent raw.2⟩,
    citations := List.insertionSort citationLe raw.1,
    explicitSentiment := es.1 }

/-! ### Helper lemmas -/

/-- Strategy 1 produces one citation per source. -/
theorem apiCitationsFrom_length (k : Nat) (l : List ApiSource) :
    (apiCitationsFrom k l).length = l.length := by
  induction l generalizing k with
  | nil => rfl
  | cons s rest ih => simp [apiCitationsFrom, ih]

/-- Element access into the strategy 1 citation list. -/
theorem apiCitationsFrom_getElem (k i : Nat) (l : List ApiSource) :
    (apiCitationsFrom k l)[i]? = (l[i]?).map (fun s => mkApiCitation (k + i) s) := by
  induction l generalizing k i with
  | nil => simp [apiCitationsFrom]
  | cons s rest ih =>
    cases i with
    | zero => simp [apiCitationsFrom]
    | succ j =>
      simp only [apiCitationsFrom, List.getElem?_cons_succ]
      rw [ih (k + 1) j]
      have hk : k + 1 + j = k + (j + 1) := by omega
      rw [hk]

/-- Every strategy 1 citation numbered from `k` has number at least `k + 1`. -/
theorem apiCitationsFrom_number_ge (k : Nat) (l : List ApiSource) :
    ∀ x ∈ apiCitationsFrom k l, k + 1 ≤ x.number := by
  induction l generalizing k with
  | nil => intro x hx; simp [apiCitationsFrom] at hx
  | cons s rest ih =>
    intro x hx
    simp only [apiCitationsFrom, List.mem_cons] at hx
    rcases hx with h | h
    · subst h; simp [mkApiCitation]
    · have := ih (k + 1) x h
      omega

/-- The strategy 1 citation list is already sorted by number. -/
theorem apiCitationsFrom_sorted (k : Nat) (l : List ApiSource) :
    List.Sorted citationLe (apiCitationsFrom k l) := by
  induction l generalizing k with
  | nil => simp [apiCitationsFrom]
  | cons s rest ih =>
    rw [apiCitationsFrom, List.sorted_cons]
    refine ⟨fun b hb => ?_, ih (k + 1)⟩
    have hge := apiCitationsFrom_number_ge (k + 1) rest b hb
    show (mkApiCitation k s).number ≤ b.number
    simp only [mkApiCitation]
    omega

/-- With a nonempty `apiSources`, the digest's citations are exactly the
strategy 1 list (the stable sort leaves the already-sorted list unchanged). -/
theorem processApiResponse_citations_api (content : String)
    (sources : List ApiSource) (h : sources ≠ []) :
    (processApiResponse content sources).citations = apiCitationsFrom 0 sources := by
  have hne : sources.isEmpty = false := by
    cases sources with
    | nil => exact absurd rfl h
    | cons a l => rfl
  unfold processApiResponse
  simp only [hne, Bool.false_eq_true, if_false]
  exact List.Sorted.insertionSort_eq (apiCitationsFrom_sorted 0 sources)

/-- Absence of adjacent star pairs. -/
def noDoubleStar : List Char → Prop
  | [] => True
  | [_] => True
  | a :: b :: r => ¬ (a = '*' ∧ b = '*') ∧ noDoubleStar (b :: r)

/-- Unfolding of `removeBoldL` at a head that is not a star. -/
theorem removeBold_cons_ne (b : Char) (r : List Char) (hb : b ≠ '*') :
    removeBoldL (b :: r) = b :: removeBoldL r := by
  cases r with
  | nil => rfl
  | cons c t =>
    rw [removeBoldL, if_neg]
    exact fun h => hb h.1

/-- Prepending a non-star preserves `noDoubleStar`. -/
theorem noDoubleStar_cons_of_ne (a : Char) (X : List Char) (ha : a ≠ '*')
    (h : noDoubleStar X) : noDoubleStar (a :: X) := by
  cases X with
  | nil => trivial
  | cons x xs => exact ⟨fun hc => ha hc.1, h⟩

/-- The output of one bold-removal pass has no adjacent star pair: a kept
star is always followed by a kept non-star. -/
theorem noDoubleStar_removeBold (l : List Char) : noDoubleStar (removeBoldL l) := by
  induction l using removeBoldL.induct with
  | case1 => trivial
  | case2 c => trivial
  | case3 a b rest hab ih =>
    rw [removeBoldL, if_pos hab]
    exact ih
  | case4 a b rest hab ih =>
    rw [removeBoldL, if_neg hab]
    by_cases ha : a = '*'
    · have hb : b ≠ '*' := fun hb => hab ⟨ha, hb⟩
      rw [removeBold_cons_ne b rest hb]
      exact ⟨fun hc => hb hc.2, by rw [← removeBold_cons_ne b rest hb]; exact ih⟩
    · exact noDoubleStar_cons_of_ne a _ ha ih

/-- Bold removal fixes a text with no adjacent star pair. -/
theorem removeBold_of_noDoubleStar (l : List Char) (h : noDoubleStar l) :
    removeBoldL l = l := by
  induction l using removeBoldL.induct with
  | case1 => rfl
  | case2 c => rfl
  | case3 a b rest hab ih => exact absurd hab h.1
  | case4 a b rest hab ih =>
    rw [removeBoldL, if_neg hab, ih h.2]

/-- The bold-removal step is idempotent. -/
theorem removeBold_idem (l : List Char) :
    removeBoldL (removeBoldL l) = removeBoldL l :=
  removeBold_of_noDoubleStar _ (noDoubleStar_removeBold l)

/-- Joint idempotence statement for the newline-collapsing scanner, for both
values of the in-run flag. -/
theorem collapseGo_idem (l : List Char) :
    (∀ b, collapseGo false (collapseGo b l) = collapseGo b l) ∧
    collapseGo true (collapseGo true l) = collapseGo true l := by
  induction l with
  | nil => exact ⟨fun b => by cases b <;> rfl, rfl⟩
  | cons c rest ih =>
    by_cases hc : c = '\n'
    · subst hc
      have e1 : ∀ X, collapseGo false ('\n' :: X) = '\n' :: '\n' :: collapseGo true X :=
        fun X => rfl
      have e2 : ∀ X, collapseGo true ('\n' :: X) = collapseGo true X :=
        fun X => rfl
      constructor
      · intro b
        cases b with
        | false => rw [e1 rest, e1, e2, ih.2]
        | true =>
          rw [e2 rest]
          exact ih.1 true
      · rw [e2 rest]
        exact ih.2
    · constructor
      · intro b
        cases b with
        | false =>
          simp only [collapseGo, if_neg hc]
          rw [ih.1 false]
        | true =>
          simp only [collapseGo, if_neg hc]
          rw [ih.1 false]
      · simp only [collapseGo, if_neg hc]
        rw [ih.1 false]

/-- The newline-collapsing step is idempotent. -/
theorem collapseNewlines_idem (l : List Char) :
    collapseNewlinesL (collapseNewlinesL l) = collapseNewlinesL l :=
  (collapseGo_idem l).1 false

/-- The collapsing scanner inside a run skips any further newline prefix. -/
theorem collapseGo_true_replicate (k : Nat) (b : List Char) :
    collapseGo true (List.replicate k '\n' ++ b) = collapseGo true b := by
  induction k with
  | zero => simp
  | succ j ih =>
    simp only [List.replicate_succ, List.cons_append]
    show collapseGo true (List.replicate j '\n' ++ b) = _
    exact ih

/-- Outside a newline the two flag values of the scanner agree. -/
theorem collapseGo_true_eq_false (b : List Char)
    (hb : b = [] ∨ ∃ d t, b = d :: t ∧ d ≠ '\n') :
    collapseGo true b = collapseGo false b := by
  rcases hb with h | ⟨d, t, hdt, hd⟩
  · subst h; rfl
  · subst hdt
    simp only [collapseGo, if_neg hd]

/-- The collapsing step leaves newline-free text unchanged. -/
theorem collapseGo_no_newline (l : List Char) (h : ∀ c ∈ l, c ≠ '\n') :
    ∀ b, collapseGo b l = l := by
  induction l with
  | nil => intro b; rfl
  | cons c rest ih =>
    intro b
    have hc : c ≠ '\n' := h c (List.mem_cons_self c rest)
    simp only [collapseGo, if_neg hc]
    rw [ih (fun d hd => h d (List.mem_cons_of_mem c hd)) false]

/-- Behaviour of the collapsing step on one maximal newline run. -/
theorem collapseGo_runs (a : List Char) (ha : ∀ c ∈ a, c ≠ '\n') (k : Nat)
    (hk : 1 ≤ k) (b : List Char)
    (hb : b = [] ∨ ∃ d t, b = d :: t ∧ d ≠ '\n') :
    collapseNewlinesL (a ++ List.replicate k '\n' ++ b) =
      a ++ '\n' :: '\n' :: collapseNewlinesL b := by
  induction a with
  | nil =>
    cases k with
    | zero => omega
    | succ j =>
      simp only [List.nil_append, List.replicate_succ, List.cons_append]
      show '\n' :: '\n' :: collapseGo true (List.replicate j '\n' ++ b) = _
      rw [collapseGo_true_replicate, collapseGo_true_eq_false b hb]
      rfl
  | cons c a2 ih =>
    have hc : c ≠ '\n' := ha c (List.mem_cons_self c a2)
    have e3 : ∀ X, collapseGo false (c :: X) = c :: collapseGo false X := by
      intro X
      simp only [collapseGo, if_neg hc]
    have ih2 := ih (fun d hd => ha d (List.mem_cons_of_mem c hd))
    simp only [List.cons_append]
    show collapseGo false (c :: (a2 ++ List.replicate k '\n' ++ b)) = _
    rw [e3]
    exact congrArg (c :: ·) ih2

/-- Characterization of the verdict thresholding on arbitrary counts. -/
theorem sentimentFromCounts_spec (p n : Nat) :
    (sentimentFromCounts p n = MarketSentiment.up ↔ n + 1 < p) ∧
    (sentimentFromCounts p n = MarketSentiment.down ↔ p + 1 < n) ∧
    (sentimentFromCounts p n = MarketSentiment.neutral ↔
      (p ≤ n + 1 ∧ n ≤ p + 1)) := by
  unfold sentimentFromCounts
  by_cases h1 : n + 1 < p
  · rw [if_pos h1]
    refine ⟨⟨fun _ => h1, fun _ => rfl⟩,
      ⟨fun hx => absurd hx (by decide), fun hx => absurd hx (by omega)⟩,
      ⟨fun hx => absurd hx (by decide), fun hx => absurd h1 (by omega)⟩⟩
  · by_cases h2 : p + 1 < n
    · rw [if_neg h1, if_pos h2]
      refine ⟨⟨fun hx => absurd hx (by decide), fun hx => absurd hx (by omega)⟩,
        ⟨fun _ => h2, fun _ => rfl⟩,
        ⟨fun hx => absurd hx (by decide), fun hx => absurd h2 (by omega)⟩⟩
    · rw [if_neg h1, if_neg h2]
      refine ⟨⟨fun hx => absurd hx (by decide), fun hx => absurd hx h1⟩,
        ⟨fun hx => absurd hx (by decide), fun hx => absurd hx h2⟩,
        ⟨fun _ => by omega, fun _ => rfl⟩⟩

/-! ### Claim theorems -/

/-- C1 (amended): for every NON-EMPTY content string and every present
explicit hint, `analyzeMarketSentiment` returns the hint as the verdict —
whatever the lexicon scan would tally, so the scanner's score cannot affect
the result — and marks the evidence source `'api'`.  (For empty content the
guard at src/src/App.tsx line 500 returns `neutral` before the hint is
consulted; see the counterexample.) -/
theorem explicit_hint_precedence (scan : String → Nat × Nat)
    (h : MarketSentiment) (content : String) (hne : content ≠ "") :
    analyzeMarketSentiment scan (some h) content = (h, some EvidenceSource.api) := by
  simp [analyzeMarketSentiment, hne]

/-- Witness for C1 at a concrete nonempty content and hint. -/
theorem explicit_hint_precedence_witness :
    ("the market dropped" : String) ≠ "" ∧
      analyzeMarketSentiment (fun _ => (0, 0)) (some MarketSentiment.down)
          "the market dropped" = (MarketSentiment.down, some EvidenceSource.api) :=
  ⟨by decide,
   explicit_hint_precedence (fun _ => (0, 0)) MarketSentiment.down
     "the market dropped" (by decide)⟩

/-- C1 counterexample: with empty content and an explicit `up` hint the
verdict is `neutral`, not the hint, refuting the claim's "including empty
C". -/
theorem explicit_hint_empty_counterexample :
    (analyzeMarketSentiment (fun _ => (0, 0)) (some MarketSentiment.up) "").1 ≠
      MarketSentiment.up := by
  decide

/-- C2: without an explicit hint, the verdict of `analyzeMarketSentiment` is
`up` exactly when the tallied positive score exceeds the negative score plus
one, `down` exactly when the negative score exceeds the positive score plus
one, and `neutral` otherwise.  The hypothesis `h0` records that the source's
lexicon tallies zero matches on empty content (every pattern of the lexicon
requires at least one character), which covers the early-return path of
line 500. -/
theorem sentiment_threshold (scan : String → Nat × Nat) (content : String)
    (h0 : scan "" = (0, 0)) :
    ((analyzeMarketSentiment scan none content).1 = MarketSentiment.up ↔
        (scan content).2 + 1 < (scan content).1) ∧
    ((analyzeMarketSentiment scan none content).1 = MarketSentiment.down ↔
        (scan content).1 + 1 < (scan content).2) ∧
    ((analyzeMarketSentiment scan none content).1 = MarketSentiment.neutral ↔
        ((scan content).1 ≤ (scan content).2 + 1 ∧
          (scan content).2 ≤ (scan content).1 + 1)) := by
  by_cases hc : content = ""
  · subst hc
    have he0 : analyzeMarketSentiment scan none "" =
        (MarketSentiment.neutral, none) := rfl
    rw [he0, h0]
    exact ⟨by decide, by decide, by decide⟩
  · have he : analyzeMarketSentiment scan none content =
        (runSentimentAnalysis scan content, some EvidenceSource.calculated) := by
      rw [analyzeMarketSentiment, if_neg hc]
    rw [he]
    exact sentimentFromCounts_spec (scan content).1 (scan content).2

/-- Witness for C2 at a concrete scan function and content. -/
theorem sentiment_threshold_witness :
    ((fun _ : String => ((0, 0) : Nat × Nat)) "" = (0, 0)) ∧
      ((analyzeMarketSentiment (fun _ => (0, 0)) none "flat market").1 =
          MarketSentiment.up ↔ (0 : Nat) + 1 < 0) :=
  ⟨rfl, (sentiment_threshold (fun _ => (0, 0)) "flat market" rfl).1⟩

/-- C3 (amended): the citation list of every extraction result is sorted
non-decreasingly by `number` (the final sort at src/src/App.tsx line 481);
uniqueness and strictness are NOT guaranteed, because strategies 2 and 3
take the numbers from the text and never de-duplicate them — see the
counterexample. -/
theorem citations_sorted (content : String) (sources : List ApiSource) :
    List.Sorted citationLe (processApiResponse content sources).citations :=
  List.sorted_insertionSort citationLe _

/-- C3 counterexample: a Sources block listing the index 1 twice yields two
citations both numbered 1, so the final list is neither strictly ascending
nor unique in `number`. -/
theorem citations_sorted_counterexample :
    ¬ List.Pairwise (fun a b => a.number < b.number)
        (processApiResponse "Sources:\n1. https://a.com\n1. https://b.com" []).citations := by
  intro hp
  have hm : ((processApiResponse "Sources:\n1. https://a.com\n1. https://b.com"
      []).citations.map Citation.number) = [1, 1] := by decide
  have hp2 : List.Pairwise (fun x y => x < y)
      ((processApiResponse "Sources:\n1. https://a.com\n1. https://b.com"
        []).citations.map Citation.number) :=
    hp.map Citation.number (fun a b hab => hab)
  rw [hm] at hp2
  simp [List.pairwise_cons] at hp2

/-- C5 spec-side definition: the domain-naming rule exactly as the spec words
it (hostname of the parsed URL, drop a leading `www.`, split on `.`, last
two labels joined — with the `markets.businessinsider` special case —
hostname itself when fewer than two labels remain, input unchanged on parse
failure), to be compared with the source-side `getDomainName`. -/
def deriveDomainSpec (url : String) : String :=
  match parseUrl url.data with
  | none => url
  | some u =>
    let labels := splitOnChar '.' (stripWww u.host)
    if 2 ≤ labels.length then
      if labels.headD [] = "markets".data ∧ labels.getD 1 [] = "businessinsider".data then
        ⟨"businessinsider.".data ++ labels.getLastD []⟩
      else
        ⟨labels.getD (labels.length - 2) [] ++ ('.' :: labels.getLastD [])⟩
    else ⟨u.host⟩

/-- C5: `getDomainName` implements exactly the spec's domain-naming rule, and
the two documented examples evaluate as stated (including the two-label
`co.uk` limitation). -/
theorem domain_naming_rule :
    (∀ url : String, getDomainName url = deriveDomainSpec url) ∧
    getDomainName "https://www.markets.businessinsider.com/a" = "businessinsider.com" ∧
    getDomainName "https://sub.example.co.uk/x" = "co.uk" :=
  ⟨fun _ => rfl, by decide, by decide⟩

/-- C6 (amended): the bold-marker-removal and newline-collapsing steps of
the markdown clean-up are each idempotent; the full normalization is NOT
idempotent, because the ordinal-list-marker removal can expose a second
marker that only a later pass removes — see the counterexample. -/
theorem normalization_steps_idempotent (x : List Char) :
    removeBoldL (removeBoldL x) = removeBoldL x ∧
    collapseNewlinesL (collapseNewlinesL x) = collapseNewlinesL x :=
  ⟨removeBold_idem x, collapseNewlines_idem x⟩

/-- C6 counterexample: normalizing `"1. 2. x"` yields `"2. x"`, and a second
pass yields `"x"`, so `normalize (normalize x) ≠ normalize x`. -/
theorem normalize_idempotent_counterexample :
    normalizeContent (normalizeContent "1. 2. x".data) ≠
      normalizeContent "1. 2. x".data := by
  decide

/-- C7 (amended): the newline-collapsing step replaces every maximal run of
ONE or more newlines with exactly one double newline — so single newlines
are doubled, not left unchanged — and passes newline-free text (inline `[N]`
markers included) through unchanged. -/
theorem collapse_newlines_doubles_runs :
    (∀ (a b : List Char) (k : Nat), (∀ c ∈ a, c ≠ '\n') → 1 ≤ k →
        (b = [] ∨ ∃ d t, b = d :: t ∧ d ≠ '\n') →
        collapseNewlinesL (a ++ List.replicate k '\n' ++ b) =
          a ++ '\n' :: '\n' :: collapseNewlinesL b) ∧
    (∀ l : List Char, (∀ c ∈ l, c ≠ '\n') → collapseNewlinesL l = l) :=
  ⟨fun a b k ha hk hb => collapseGo_runs a ha k hk b hb,
   fun l h => collapseGo_no_newline l h false⟩

/-- Witness for C7 at a concrete run of length 2 and a newline-free tail
containing a `[N]` marker. -/
theorem collapse_newlines_doubles_runs_witness :
    collapseNewlinesL ("BTC up".data ++ List.replicate 2 '\n' ++ "[1] done".data) =
        "BTC up".data ++ '\n' :: '\n' :: collapseNewlinesL "[1] done".data ∧
      collapseNewlinesL "see [2] markers".data = "see [2] markers".data :=
  ⟨collapse_newlines_doubles_runs.1 "BTC up".data "[1] done".data 2 (by decide)
      (by decide) (Or.inr ⟨'[', "1] done".data, by decide, by decide⟩),
   collapse_newlines_doubles_runs.2 "see [2] markers".data (by decide)⟩

/-- C7 counterexample: a SINGLE newline is not left unchanged — it is
doubled by `.replace(/\n+/g, '\n\n')`. -/
theorem collapse_single_newline_counterexample :
    collapseNewlinesL "a\nb".data ≠ "a\nb".data := by
  decide

/-- C4: with a nonempty `apiSources`, extraction produces exactly one
citation per entry, in input order with `number = i + 1`, the title being the
provided title or — when absent (JavaScript-falsy) — the domain name derived
from the URL; and the citation list does not depend on the raw text at all,
so inline `[N]` markers or trailing `Sources:` text cannot affect the count
or order. -/
theorem api_sources_citations (content content2 : String)
    (sources : List ApiSource) (hne : sources ≠ []) :
    ((processApiResponse content sources).citations.length = sources.length) ∧
    (∀ (i : Nat) (s : ApiSource), sources[i]? = some s →
      (processApiResponse content sources).citations[i]? =
        some { number := i + 1,
               title := jsOrS s.title (getDomainName (jsOrS s.url "")),
               url := jsOrS s.url "",
               isCited := true,
               favicon := getFavicon (jsOrS s.url "") }) ∧
    ((processApiResponse content2 sources).citations =
      (processApiResponse content sources).citations) := by
  have h1 := processApiResponse_citations_api content sources hne
  have h2 := processApiResponse_citations_api content2 sources hne
  refine ⟨?_, ?_, ?_⟩
  · rw [h1, apiCitationsFrom_length]
  · intro i s hs
    rw [h1, apiCitationsFrom_getElem, Nat.zero_add, hs]
    rfl
  · rw [h1, h2]

/-- Witness for C4: two structured sources beat a raw text full of inline
markers and a `Sources:` block. -/
theorem api_sources_citations_witness :
    ((processApiResponse "raw [1][2] text\nSources:\n1. https://zzz.com"
        [⟨some "https://coindesk.com/x", none⟩, ⟨none, some "T"⟩]).citations.length = 2) ∧
      ((processApiResponse "raw [1][2] text\nSources:\n1. https://zzz.com"
          [⟨some "https://coindesk.com/x", none⟩, ⟨none, some "T"⟩]).citations[0]? =
        some { number := 1, title := "coindesk.com", url := "https://coindesk.com/x",
               isCited := true, favicon := "https://coindesk.com/favicon.ico" }) ∧
      ((processApiResponse "entirely different"
          [⟨some "https://coindesk.com/x", none⟩, ⟨none, some "T"⟩]).citations =
        (processApiResponse "raw [1][2] text\nSources:\n1. https://zzz.com"
          [⟨some "https://coindesk.com/x", none⟩, ⟨none, some "T"⟩]).citations) := by
  have h := api_sources_citations "raw [1][2] text\nSources:\n1. https://zzz.com"
    "entirely different"
    [⟨some "https://coindesk.com/x", none⟩, ⟨none, some "T"⟩] (by decide)
  refine ⟨?_, ?_, h.2.2⟩
  · rw [h.1]
    rfl
  · rw [h.2.1 0 ⟨some "https://coindesk.com/x", none⟩ rfl]
    decide

/-- The end-to-end input of claim C8. -/
def c8Input : String :=
  "SENTIMENT: BULLISH\nBTC is up today [1].\n\nSources:\n1. https://coindesk.com/btc-news"

/-- C8: assembling the documented end-to-end input with no `apiSources`
yields explicit sentiment `up`, content containing `"BTC is up today [1]."`
with no literal `"Sources:"` text, and exactly the one documented
citation. -/
theorem end_to_end_digest :
    (processApiResponse c8Input [] =
      { content := "BTC is up today [1].",
        citations := [{ number := 1, title := "coindesk.com",
                        url := "https://coindesk.com/btc-news", isCited := true,
                        favicon := "https://coindesk.com/favicon.ico" }],
        explicitSentiment := some MarketSentiment.up }) ∧
    containsSub "BTC is up today [1].".data (processApiResponse c8Input []).content.data = true ∧
    containsSub "Sources:".data (processApiResponse c8Input []).content.data = false := by
  exact ⟨by decide, by decide, by decide⟩

/-- C9: the favicon lookup is a total function that returns the parsed URL's
origin suffixed with `/favicon.ico` and degrades to the empty string on any
parse failure; inside strategy 1 every citation's favicon is computed from
its own URL alone, so one failing lookup leaves the citation count and every
other citation untouched. -/
theorem favicon_never_throws (url : String) (content : String)
    (sources : List ApiSource) (hne : sources ≠ []) :
    (parseUrl url.data = none → getFavicon url = "") ∧
    (∀ u, parseUrl url.data = some u →
      getFavicon url = (⟨urlOrigin u ++ "/favicon.ico".data⟩ : String)) ∧
    ((processApiResponse content sources).citations.length = sources.length) ∧
    (∀ i : Nat, (processApiResponse content sources).citations[i]?.map Citation.favicon =
      (sources[i]?).map (fun s => getFavicon (jsOrS s.url ""))) := by
  refine ⟨?_, ?_, ?_, ?_⟩
  · intro h
    unfold getFavicon
    rw [h]
  · intro u h
    unfold getFavicon
    rw [h]
  · rw [processApiResponse_citations_api content sources hne, apiCitationsFrom_length]
  · intro i
    rw [processApiResponse_citations_api content sources hne, apiCitationsFrom_getElem]
    cases sources[i]? <;> rfl

/-- Witness for C9: a malformed URL in the first source degrades only that
citation's favicon to the empty string; the second citation still gets its
probe URL. -/
theorem favicon_never_throws_witness :
    getFavicon "::not a url::" = "" ∧
      ((processApiResponse "txt"
          [⟨some "::not a url::", some "Bad"⟩, ⟨some "https://x.co/a", none⟩]).citations.length = 2) ∧
      ((processApiResponse "txt"
          [⟨some "::not a url::", some "Bad"⟩, ⟨some "https://x.co/a", none⟩]).citations[0]?.map
        Citation.favicon = some "") ∧
      ((processApiResponse "txt"
          [⟨some "::not a url::", some "Bad"⟩, ⟨some "https://x.co/a", none⟩]).citations[1]?.map
        Citation.favicon = some "https://x.co/favicon.ico") := by
  have h := favicon_never_throws "::not a url::" "txt"
    [⟨some "::not a url::", some "Bad"⟩, ⟨some "https://x.co/a", none⟩] (by decide)
  refine ⟨h.1 (by decide), ?_, ?_, ?_⟩
  · rw [h.2.2.1]
    rfl
  · rw [h.2.2.2 0]
    decide
  · rw [h.2.2.2 1]
    decide

/-- C10: when the raw text matches the Sources-heading block pattern (with a
captured block) but no line of the block matches the leading-index-and-URL
pattern, strategy 2 contributes zero citations yet still strips the whole
block from the processed content, so strategies 3 and 4 run on the
already-stripped content — the block is no longer there to recover sources
from — and the digest's citations are whatever they extract from it. -/
theorem sources_block_strip_without_matches (content : String) (block : List Char)
    (h1 : findSourcesBlock content.data = some (some block))
    (h2 : ∀ line ∈ splitOnChar '\n' block, lineSourceMatch line = none) :
    strategy2 content.data (extractSentiment content.data).2 =
      ([], jsTrim (stripSourcesBlockFrom (extractSentiment content.data).2)) ∧
    fallbackExtract content.data (extractSentiment content.data).2 =
      strategies34 (jsTrim (stripSourcesBlockFrom (extractSentiment content.data).2)) ∧
    (processApiResponse content []).citations =
      List.insertionSort citationLe
        (strategies34 (jsTrim (stripSourcesBlockFrom (extractSentiment content.data).2))).1 := by
  have hnil : ∀ ls : List (List Char), (∀ line ∈ ls, lineSourceMatch line = none) →
      ls.filterMap (fun line => (lineSourceMatch line).map
        (fun p => mkUrlCitation p.1 p.2)) = [] := by
    intro ls hls
    induction ls with
    | nil => rfl
    | cons x xs ih =>
      rw [List.filterMap_cons, hls x (List.mem_cons_self x xs)]
      exact ih (fun y hy => hls y (List.mem_cons_of_mem x hy))
  have hred : strategy2 content.data (extractSentiment content.data).2 =
      ((splitOnChar '\n' block).filterMap
          (fun line => (lineSourceMatch line).map (fun p => mkUrlCitation p.1 p.2)),
        jsTrim (stripSourcesBlockFrom (extractSentiment content.data).2)) := by
    unfold strategy2
    rw [h1]
  have hs2 : strategy2 content.data (extractSentiment content.data).2 =
      ([], jsTrim (stripSourcesBlockFrom (extractSentiment content.data).2)) := by
    rw [hred, hnil (splitOnChar '\n' block) h2]
  have hf : fallbackExtract content.data (extractSentiment content.data).2 =
      strategies34 (jsTrim (stripSourcesBlockFrom (extractSentiment content.data).2)) := by
    unfold fallbackExtract
    rw [hs2]
    rfl
  have hmain : (processApiResponse content []).citations =
      List.insertionSort citationLe
        (fallbackExtract content.data (extractSentiment content.data).2).1 := rfl
  exact ⟨hs2, hf, by rw [hmain, hf]⟩

/-- Witness for C10: a `Sources:` block containing no indexed URL line is
stripped whole; strategies 3 and 4 then find nothing in the remaining
content. -/
theorem sources_block_strip_without_matches_witness :
    (strategy2 "abc\n\nSources:\njust text".data
        (extractSentiment "abc\n\nSources:\njust text".data).2 =
      ([], jsTrim (stripSourcesBlockFrom
        (extractSentiment "abc\n\nSources:\njust text".data).2))) ∧
      ((processApiResponse "abc\n\nSources:\njust text" []).citations =
        List.insertionSort citationLe
          (strategies34 (jsTrim (stripSourcesBlockFrom
            (extractSentiment "abc\n\nSources:\njust text".data).2))).1) := by
  have h := sources_block_strip_without_matches "abc\n\nSources:\njust text"
    "\njust text".data (by decide) (by decide)
  exact ⟨h.1, h.2.2⟩

end CMIntel
